import Mathlib

/-!
Shallow embedding of src/model.rs of the skim fuzzy finder: the text layout
helpers (display_width, left_fixed, right_fixed, reshape_string), the
viewport/selection state machine (Model and its act_* methods) and the
per-row renderer (print_item / print_items).  Rust usize arithmetic is
modelled as Nat together with an explicit checked subtraction: `checkedSub`
returns `none` exactly where the Rust expression would underflow (a panic in
a debug build), and slice indexing that would panic is likewise `none`.
i32 quantities (cursor deltas, terminal geometry) are modelled as Int, with
the `as usize` cast made explicit by `usize_cast`.
-/

/-- Checked usize subtraction: `none` models a Rust underflow. -/
def checkedSub (a b : Nat) : Option Nat := if b ≤ a then some (a - b) else none

/-- The `as usize` cast of an i32 value: reduce modulo 2^64 (a negative i32
sign-extends and wraps to a huge usize). -/
def usize_cast (i : Int) : Nat := (i.emod (2 ^ 64)).toNat

/-- Per-glyph column width used throughout model.rs: `c.len_utf8() > 1`
counts two columns, otherwise one. -/
def charWidth (c : Char) : Nat := if 1 < c.utf8Size then 2 else 1

/-- `display_width` of model.rs: map each glyph to its width and sum. -/
def display_width (text : List Char) : Nat :=
  (text.map charWidth).foldl (fun acc n => acc + n) 0

/-- The scan loop of `left_fixed`: accumulate width `w` left to right; at the
first glyph whose inclusion overflows `max_x` return `idx - 1`; if the whole
sequence fits return `len - 1`.  Both subtractions are checked usize
subtractions. -/
def left_fixed_go (max_x len : Nat) : List Char → Nat → Nat → Option Nat
  | [], _, _ => checkedSub len 1
  | c :: rest, idx, w =>
    if max_x < w + charWidth c then checkedSub idx 1
    else left_fixed_go max_x len rest (idx + 1) (w + charWidth c)

/-- `left_fixed` of model.rs. -/
def left_fixed (text : List Char) (max_x : Nat) : Option Nat :=
  if max_x = 0 then some 0
  else left_fixed_go max_x text.length text 0 0

/-- The scan loop of `right_fixed`, iterating the reversed sequence so that
the head is the rightmost unprocessed glyph; `idx` is that glyph's index in
the original sequence.  The loop itself never fails. -/
def right_fixed_go (max_x : Nat) : List Char → Nat → Nat → Nat
  | [], _, _ => 0
  | c :: rest, idx, w =>
    if max_x < w + charWidth c then idx + 1
    else right_fixed_go max_x rest (idx - 1) (w + charWidth c)

/-- `right_fixed` of model.rs: for `max_x == 0` it returns `len - 1` (checked),
otherwise it runs the right-to-left scan. -/
def right_fixed (text : List Char) (max_x : Nat) : Option Nat :=
  if max_x = 0 then checkedSub text.length 1
  else some (right_fixed_go max_x text.reverse (text.length - 1) 0)

/-- Rust slice `&text[a..]`: panics (`none`) when `a > len`. -/
def sliceFrom (text : List Char) (a : Nat) : Option (List Char) :=
  if a ≤ text.length then some (text.drop a) else none

/-- Rust slice `&text[a..b]`: panics (`none`) unless `a ≤ b ≤ len`. -/
def sliceRange (text : List Char) (a b : Nat) : Option (List Char) :=
  if a ≤ b ∧ b ≤ text.length then some ((text.take b).drop a) else none

/-- `reshape_string` of model.rs: the visible slice of `text[text_start_pos..]`
fitting `container_width` columns while keeping `matched_end_pos` visible,
together with the absolute index of its first displayed glyph.  Every usize
subtraction and slice is checked. -/
def reshape_string (text : List Char) (container_width text_start_pos matched_end_pos : Nat) :
    Option (List Char × Nat) :=
  match sliceFrom text text_start_pos with
  | none => none
  | some tail =>
    if display_width tail ≤ container_width then
      some (tail, text_start_pos)
    else
      match checkedSub container_width 2 with
      | none => none
      | some cw2 =>
        match left_fixed tail cw2 with
        | none => none
        | some lf =>
          let right_pos := 1 + max matched_end_pos (text_start_pos + lf)
          match sliceRange text text_start_pos right_pos with
          | none => none
          | some window =>
            match right_fixed window cw2 with
            | none => none
            | some rf =>
              let left_pos := text_start_pos + rf
              if text_start_pos < left_pos then
                match checkedSub container_width 4 with
                | none => none
                | some cw4 =>
                  match right_fixed window cw4 with
                  | none => none
                  | some rf2 =>
                    let left_pos2 := text_start_pos + rf2
                    match checkedSub left_pos2 2 with
                    | none => none
                    | some ret_pos =>
                      match sliceRange text left_pos2 right_pos with
                      | none => none
                      | some body =>
                        some ('.' :: '.' :: (body ++ ['.', '.']), ret_pos)
              else
                match sliceRange text left_pos right_pos with
                | none => none
                | some body => some (body ++ ['.', '.'], left_pos)

example : reshape_string ['0','1','2','3','4','5','6','7','8','9'] 6 1 7 =
    some (['.','.','6','7','.','.'], 4) := by decide

example : reshape_string ['0','1','2','3','4','5','6','7','8','9'] 12 1 7 =
    some (['1','2','3','4','5','6','7','8','9'], 1) := by decide

example : reshape_string ['0','1','2','3','4','5','6','7','8','9'] 6 0 6 =
    some (['.','.','5','6','.','.'], 3) := by decide

example : reshape_string ['0','1','2','3','4','5','6','7','8','9'] 8 0 4 =
    some (['0','1','2','3','4','5','.','.'], 0) := by decide

example : reshape_string ['0','1','2','3','4','5','6','7','8','9'] 10 0 4 =
    some (['0','1','2','3','4','5','6','7','8','9'], 0) := by decide

example : left_fixed ([] : List Char) 5 = none := by decide

example : right_fixed ([] : List Char) 0 = none := by decide

example : reshape_string ['0','1'] 0 0 0 = none := by decide

/-! The data model: CandidateLine entries of the master item table, ranked
matches, and the Model state of model.rs.  External collaborators (event box,
query, curses handle) are out of this core and omitted; `matched_items`
models the OrderedVec through its positional access contract. -/

/-- A candidate line of the master item table (`Item` of item.rs, reduced to
the one field model.rs reads: its raw text). -/
structure Item where
  text : List Char
deriving DecidableEq, Repr

/-- A highlight span of a ranked match: a sorted set of matched character
offsets, or a contiguous range. -/
inductive MatchedRange where
  | Chars : List Nat → MatchedRange
  | Range : Nat → Nat → MatchedRange
deriving DecidableEq, Repr

/-- A ranked match: the stable index of its candidate line in the master item
table plus an optional highlight span. -/
structure MatchedItem where
  index : Nat
  matched_range : Option MatchedRange
deriving DecidableEq, Repr

/-- The Model state of model.rs (the fields the viewport/selection machine,
renderer and output read or write). -/
structure Model where
  items : List Item
  selected_indics : Finset Nat
  matched_items : List MatchedItem
  item_cursor : Nat
  line_cursor : Nat
  hscroll_offset : Nat
  max_y : Int
  max_x : Int
  width : Nat
  height : Nat
  tabstop : Nat
deriving DecidableEq

/-- `Model::new`: cursors at 0, empty selection, geometry taken from the
terminal, `width = (max_x-2) as usize`, `height = (max_y-2) as usize`. -/
def initial_model (max_y max_x : Int) : Model :=
  { items := []
    selected_indics := ∅
    matched_items := []
    item_cursor := 0
    line_cursor := 0
    hscroll_offset := 0
    max_y := max_y
    max_x := max_x
    width := usize_cast (max_x - 2)
    height := usize_cast (max_y - 2)
    tabstop := 8 }

/-- `Model::push_item`: append a ranked match to the store. -/
def push_item (m : Model) (item : MatchedItem) : Model :=
  { m with matched_items := m.matched_items ++ [item] }

/-- `Model::clear_items`: empty the ranked item store; nothing else changes. -/
def clear_items (m : Model) : Model :=
  { m with matched_items := [] }

/-- `Model::resize`: re-query terminal geometry into max_y/max_x.  The
derived `width`/`height` fields are not touched by the source. -/
def resize (m : Model) (new_max_y new_max_x : Int) : Model :=
  { m with max_y := new_max_y, max_x := new_max_x }

/-- `Model::output`: sort the selected identities ascending and emit each
selected line's raw text; indexing a missing item is a panic (`none`). -/
def output (m : Model) : Option (List (List Char)) :=
  (m.selected_indics.sort (· ≤ ·)).mapM (fun index => (m.items.get? index).map Item.text)

/-- `Model::act_deselect_all`. -/
def act_deselect_all (m : Model) : Model :=
  { m with selected_indics := ∅ }

/-- `Model::act_select_all`: for every rank position `i` in `0..len`, insert
`i` into the selection set. -/
def act_select_all (m : Model) : Model :=
  { m with selected_indics :=
      (List.range m.matched_items.length).foldl (fun acc i => insert i acc) m.selected_indics }

/-- `Model::act_toggle_all`: take the old selection out, and rebuild from
empty by inserting every rank position `i` in `0..len` not in the old set. -/
def act_toggle_all (m : Model) : Model :=
  { m with selected_indics :=
      ((List.range m.matched_items.length).foldl
        (fun acc i => if i ∉ m.selected_indics then insert i acc else acc) ∅) }

/-- `Model::act_toggle`: resolve the entry at `item_cursor` (no-op when none),
then force or flip membership of its stable index in the selection set. -/
def act_toggle (m : Model) (selected : Option Bool) : Model :=
  match m.matched_items.get? m.item_cursor with
  | none => m
  | some matched =>
    match selected with
    | some true => { m with selected_indics := insert matched.index m.selected_indics }
    | some false => { m with selected_indics := m.selected_indics.erase matched.index }
    | none =>
      if matched.index ∈ m.selected_indics then
        { m with selected_indics := m.selected_indics.erase matched.index }
      else
        { m with selected_indics := insert matched.index m.selected_indics }

/-- `Model::act_move_line_cursor`: both cursors move by `diff` (i32); with a
positive `diff` the line cursor is clamped by `height-1` and `total-1` and
the item cursor by `total-1`, both floored at 0; with `diff <= 0` both are
only floored at 0. -/
def act_move_line_cursor (m : Model) (diff : Int) : Model :=
  let total_item : Int := m.matched_items.length
  let y : Int := m.line_cursor + diff
  let line_cursor :=
    if 0 < diff then
      let tmp := min (min y ((m.height : Int) - 1)) (total_item - 1)
      if tmp < 0 then 0 else tmp.toNat
    else (max 0 y).toNat
  let item_y : Int := m.item_cursor + diff
  let item_cursor :=
    if 0 < diff then
      let tmp := min item_y (total_item - 1)
      if tmp < 0 then 0 else tmp.toNat
    else (max 0 item_y).toNat
  { m with line_cursor := line_cursor, item_cursor := item_cursor }

/-- `Model::act_move_page`: move by `height * pages` lines. -/
def act_move_page (m : Model) (pages : Int) : Model :=
  act_move_line_cursor m ((m.height : Int) * pages)

/-! The per-row renderer.  Drawing is modelled as the sequence of
`print_char` calls: each emitted element is the glyph together with the color
id and boldness flag passed to the terminal driver. -/

/-- Color pair ids of curses.rs (abstract distinct constants). -/
def COLOR_NORMAL : Nat := 1

/-- Color of the matched glyphs. -/
def COLOR_MATCHED : Nat := 2

/-- Color of the current line. -/
def COLOR_CURRENT : Nat := 3

/-- Color of the selection marker. -/
def COLOR_SELECTED : Nat := 4

/-- Color of the cursor marker. -/
def COLOR_CURSOR : Nat := 5

/-- The skip loop of `print_item`: drop leading matched offsets strictly
below the first displayed index, stopping at the first offset not below it. -/
def skip_indics (idx : Nat) : List Nat → List Nat
  | [] => []
  | index :: rest => if index < idx then skip_indics idx rest else index :: rest

/-- The glyph loop of `print_item`: walk the displayed glyphs with the
running absolute index `idx`, peeking the next matched offset; on a hit the
glyph is drawn with COLOR_MATCHED and the offset consumed, otherwise with
the current/normal color.  Boldness is the is_current flag. -/
def highlight_loop (is_current : Bool) : List Char → List Nat → Nat → List (Char × Nat × Bool)
  | [], _, _ => []
  | ch :: rest, index :: irest, idx =>
    if idx = index then
      (ch, COLOR_MATCHED, is_current) :: highlight_loop is_current rest irest (idx + 1)
    else
      (ch, if is_current then COLOR_CURRENT else COLOR_NORMAL, is_current) ::
        highlight_loop is_current rest (index :: irest) (idx + 1)
  | ch :: rest, [], idx =>
    (ch, if is_current then COLOR_CURRENT else COLOR_NORMAL, is_current) ::
      highlight_loop is_current rest [] (idx + 1)

/-- The selection/current marker glyph emitted at the start of a row. -/
def sel_marker (m : Model) (matched : MatchedItem) (is_current : Bool) : Char × Nat × Bool :=
  if matched.index ∈ m.selected_indics then ('>', COLOR_SELECTED, true)
  else (' ', if is_current then COLOR_CURRENT else COLOR_NORMAL, false)

/-- `Model::print_item`: fetch the candidate line (panic when the index is
out of the master table), emit the selection marker, then — only for a
`Chars` highlight span — reshape the text with budget `max_x - 3`, start
`hscroll_offset` and must-show position the last matched offset (0 when the
span is empty), and draw the returned slice with highlight walking.  `Range`
and absent spans draw nothing beyond the marker. -/
def print_item (m : Model) (matched : MatchedItem) (is_current : Bool) :
    Option (List (Char × Nat × Bool)) :=
  match m.items.get? matched.index with
  | none => none
  | some item =>
    let marker := sel_marker m matched is_current
    match matched.matched_range with
    | some (MatchedRange.Chars matched_indics) =>
      let matched_end_pos := (matched_indics.getLast?).getD 0
      match reshape_string item.text (usize_cast (m.max_x - 3)) m.hscroll_offset
          matched_end_pos with
      | none => none
      | some (text, idx) =>
        some (marker :: highlight_loop is_current text (skip_indics idx matched_indics) idx)
    | some (MatchedRange.Range _ _) => some [marker]
    | none => some [marker]

/-- The row loop of `Model::print_items`: rows `i` from 0 while `i < height`,
stopping early when the store has no entry at `item_start_pos + i`.  Each
row is the cursor label followed by the print_item emissions. -/
def print_items_go (m : Model) (item_start_pos : Nat) :
    Nat → Nat → Option (List (List (Char × Nat × Bool)))
  | 0, _ => some []
  | fuel + 1, i =>
    match m.matched_items.get? (item_start_pos + i) with
    | none => some []
    | some matched =>
      let is_current := i == m.line_cursor
      let label := if is_current then '>' else ' '
      match print_item m matched is_current with
      | none => none
      | some row =>
        match print_items_go m item_start_pos fuel (i + 1) with
        | none => none
        | some rest => some (((label, COLOR_CURSOR, true) :: row) :: rest)

/-- `Model::print_items`: the window starts at `item_cursor - line_cursor`
(a usize subtraction), and up to `height` rows are rendered bottom-up. -/
def print_items (m : Model) : Option (List (List (Char × Nat × Bool))) :=
  match checkedSub m.item_cursor m.line_cursor with
  | none => none
  | some item_start_pos => print_items_go m item_start_pos m.height 0

/-! Navigation action sequences for the viewport invariant: between actions
the ranked item store may be refilled arbitrarily by the producer. -/

/-- A navigation command of the action dispatcher. -/
inductive NavAct where
  | move : Int → NavAct
  | page : Int → NavAct
deriving DecidableEq, Repr

/-- Apply one navigation command. -/
def apply_nav (m : Model) : NavAct → Model
  | NavAct.move diff => act_move_line_cursor m diff
  | NavAct.page pages => act_move_page m pages

/-- Run a sequence of navigation commands, each observing an arbitrary
current content of the ranked item store. -/
def run_nav (m : Model) : List (NavAct × List MatchedItem) → Model
  | [] => m
  | (a, stored) :: rest => run_nav (apply_nav { m with matched_items := stored } a) rest

/-! Concrete states used by the counterexamples and witnesses below. -/

/-- A state whose single ranked match resolves to master-table index 5. -/
def modelRank5 : Model :=
  { initial_model 24 80 with matched_items := [⟨5, none⟩] }

/-- A state with a stale selected identity 1 and an emptied store. -/
def modelStale : Model :=
  { initial_model 24 80 with selected_indics := {1} }

/-- A state with both cursors at 5 over an emptied store (reachable: move
down five entries, then clear; clear does not reclamp the cursors). -/
def modelCursor5 : Model :=
  { initial_model 24 80 with line_cursor := 5, item_cursor := 5 }

/-- A state with one candidate line "abc" in the master table. -/
def modelAbc : Model :=
  { initial_model 24 80 with items := [⟨['a', 'b', 'c']⟩] }

/-- A two-item state whose ranked store lists them in reversed order. -/
def modelTwo : Model :=
  { initial_model 24 80 with
      items := [⟨['a']⟩, ⟨['b']⟩]
      matched_items := [⟨1, none⟩, ⟨0, none⟩] }

/-- A one-entry state with the single rank position selected. -/
def modelSel0 : Model :=
  { initial_model 24 80 with matched_items := [⟨0, none⟩], selected_indics := {0} }

/-- A two-item state with item 1 selected. -/
def modelSel1 : Model :=
  { initial_model 24 80 with items := [⟨['a']⟩, ⟨['b']⟩], selected_indics := {1} }

example : (act_select_all modelRank5).selected_indics = {0} := by decide

example : (act_toggle_all modelRank5).selected_indics = {0} := by decide

example : (act_move_line_cursor modelCursor5 (-1)).line_cursor = 4 := by decide

example : print_item modelAbc ⟨0, none⟩ false = some [(' ', COLOR_NORMAL, false)] := by decide

example : (act_toggle_all (act_toggle_all modelStale)).selected_indics = ∅ := by decide

example : output modelSel1 = some [['b']] := by
  simp only [output, modelSel1, initial_model, Finset.sort_singleton]
  rfl

/-! Helper lemmas shared by several claims. -/

theorem foldl_insert_range (s : Finset ℕ) (n : ℕ) :
    (List.range n).foldl (fun acc i => insert i acc) s = s ∪ Finset.range n := by
  induction n with
  | zero => simp
  | succ n ih =>
    rw [List.range_succ, List.foldl_append, ih]
    simp [Finset.range_succ, Finset.union_insert]

theorem foldl_toggle_range (sel s : Finset ℕ) (n : ℕ) :
    (List.range n).foldl (fun acc i => if i ∉ sel then insert i acc else acc) s
      = s ∪ (Finset.range n \ sel) := by
  induction n with
  | zero => simp
  | succ n ih =>
    rw [List.range_succ, List.foldl_append, ih]
    by_cases hn : n ∈ sel
    · simp only [List.foldl_cons, List.foldl_nil, hn, not_true_eq_false, if_false,
        Finset.range_succ]
      ext x
      simp only [Finset.mem_union, Finset.mem_sdiff, Finset.mem_insert, Finset.mem_range]
      constructor
      · rintro (h | ⟨h1, h2⟩)
        · exact Or.inl h
        · exact Or.inr ⟨Or.inr h1, h2⟩
      · rintro (h | ⟨h1 | h1, h2⟩)
        · exact Or.inl h
        · exact absurd (h1 ▸ hn) h2
        · exact Or.inr ⟨h1, h2⟩
    · simp only [List.foldl_cons, List.foldl_nil, hn, not_false_eq_true, if_true,
        Finset.range_succ]
      ext x
      simp only [Finset.mem_insert, Finset.mem_union, Finset.mem_sdiff, Finset.mem_range]
      constructor
      · rintro (h | h | ⟨h1, h2⟩)
        · exact Or.inr ⟨Or.inl h, h ▸ hn⟩
        · exact Or.inl h
        · exact Or.inr ⟨Or.inr h1, h2⟩
      · rintro (h | ⟨h1 | h1, h2⟩)
        · exact Or.inr (Or.inl h)
        · exact Or.inl h1
        · exact Or.inr (Or.inr ⟨h1, h2⟩)

theorem toggle_all_eq (m : Model) :
    (act_toggle_all m).selected_indics
      = Finset.range m.matched_items.length \ m.selected_indics := by
  have h := foldl_toggle_range m.selected_indics ∅ m.matched_items.length
  simp only [act_toggle_all, h, Finset.empty_union]

/-- C1 counterexample: with one ranked match resolving to master-table index
5 and an empty selection, act_select_all and act_toggle_all both produce the
selection {0} — the rank position — and the resolved identity 5 is not
selected, refuting the claim that the resolved identity is added. -/
theorem select_all_rank_cex :
    modelRank5.matched_items.map MatchedItem.index = [5] ∧
    modelRank5.selected_indics = ∅ ∧
    (act_select_all modelRank5).selected_indics = {0} ∧
    (5 : ℕ) ∉ (act_select_all modelRank5).selected_indics ∧
    (act_toggle_all modelRank5).selected_indics = {0} ∧
    (5 : ℕ) ∉ (act_toggle_all modelRank5).selected_indics := by decide

/-- C1 (amended): act_select_all adds every rank position 0..len itself
(not the resolved identity) to the selection set, and act_toggle_all
replaces the selection with the complement of the current selection within
the rank positions 0..len. -/
theorem select_all_by_rank (m : Model) :
    (act_select_all m).selected_indics
        = m.selected_indics ∪ Finset.range m.matched_items.length ∧
    (act_toggle_all m).selected_indics
        = Finset.range m.matched_items.length \ m.selected_indics := by
  refine ⟨?_, toggle_all_eq m⟩
  simp only [act_select_all, foldl_insert_range]

/-- C4 counterexample: with both cursors at 5 over an emptied store (total
= 0) and delta = -1, the cursors move to 4, not to 0 as the claim's
"when total == 0 both become 0" clause requires. -/
theorem move_cursor_total_zero_cex :
    modelCursor5.matched_items.length = 0 ∧
    (act_move_line_cursor modelCursor5 (-1)).line_cursor = 4 ∧
    (act_move_line_cursor modelCursor5 (-1)).item_cursor = 4 := by decide

/-- C10 (code_bug evidence): resize stores the re-queried geometry in
max_y/max_x but never recomputes width/height, the budgets actually used by
print_items and act_move_line_cursor; after shrinking a 30-row terminal to
10 rows the row budget stays 28 instead of 8. -/
theorem resize_stale_height :
    (∀ (m : Model) (y x : Int),
        (resize m y x).height = m.height ∧ (resize m y x).width = m.width ∧
        (resize m y x).max_y = y ∧ (resize m y x).max_x = x) ∧
    (resize (initial_model 30 80) 10 40).height = 28 ∧
    usize_cast ((10 : Int) - 2) = 8 := by
  refine ⟨fun m y x => ⟨rfl, rfl, rfl, rfl⟩, by decide, by decide⟩

/-- C6: clear_items empties only the ranked item store — selection, both
cursors and the horizontal offset are untouched — and an identity toggled
into the selection stays selected across clear_items followed by re-pushing
any items in any order. -/
theorem clear_preserves_selection (m : Model) (it : MatchedItem)
    (l : List MatchedItem)
    (hget : m.matched_items.get? m.item_cursor = some it)
    (hnot : it.index ∉ m.selected_indics) :
    (clear_items m).matched_items = [] ∧
    (clear_items m).selected_indics = m.selected_indics ∧
    (clear_items m).item_cursor = m.item_cursor ∧
    (clear_items m).line_cursor = m.line_cursor ∧
    (clear_items m).hscroll_offset = m.hscroll_offset ∧
    it.index ∈ (l.foldl push_item (clear_items (act_toggle m none))).selected_indics := by
  refine ⟨rfl, rfl, rfl, rfl, rfl, ?_⟩
  have hfold : ∀ (l : List MatchedItem) (mm : Model),
      (l.foldl push_item mm).selected_indics = mm.selected_indics := by
    intro l
    induction l with
    | nil => intro mm; rfl
    | cons a t ih => intro mm; rw [List.foldl_cons, ih]; rfl
  have hget2 : m.matched_items[m.item_cursor]? = some it := by simpa using hget
  have hsel : (act_toggle m none).selected_indics = insert it.index m.selected_indics := by
    simp [act_toggle, hget2, hnot]
  rw [hfold]
  simp [clear_items, hsel]

/-- C6 witness: in the two-item state, toggle selects identity 1 (ranked at
position 0); after a clear and re-pushing the two matches in the opposite
order, identity 1 is still selected. -/
theorem clear_preserves_selection_witness :
    modelTwo.matched_items.get? modelTwo.item_cursor = some ⟨1, none⟩ ∧
    (1 : ℕ) ∉ modelTwo.selected_indics ∧
    (1 : ℕ) ∈ ((([⟨0, none⟩, ⟨1, none⟩] : List MatchedItem)).foldl push_item
        (clear_items (act_toggle modelTwo none))).selected_indics :=
  ⟨by decide, by decide,
    (clear_preserves_selection modelTwo ⟨1, none⟩ [⟨0, none⟩, ⟨1, none⟩]
      (by decide) (by decide)).2.2.2.2.2⟩

/-- C8 counterexample: with a stale selected identity 1 and an emptied
store, act_toggle_all applied twice yields the empty selection, not the
original one. -/
theorem toggle_all_involution_cex :
    (act_toggle_all (act_toggle_all modelStale)).selected_indics
      ≠ modelStale.selected_indics := by decide

/-- C8 (amended): act_select_all followed by act_deselect_all empties the
selection; act_toggle_all applied twice restores the selection whenever
every selected element is a current rank position (selection ⊆ 0..len). -/
theorem toggle_all_involution (m : Model)
    (hsub : m.selected_indics ⊆ Finset.range m.matched_items.length) :
    (act_deselect_all (act_select_all m)).selected_indics = ∅ ∧
    (act_toggle_all (act_toggle_all m)).selected_indics = m.selected_indics := by
  refine ⟨rfl, ?_⟩
  rw [toggle_all_eq, toggle_all_eq]
  have hlen : (act_toggle_all m).matched_items = m.matched_items := rfl
  rw [hlen, Finset.sdiff_sdiff_self_left]
  exact Finset.inter_eq_right.mpr hsub

/-- C8 witness: in the one-entry state with rank position 0 selected, the
deselect-after-select and double-toggle identities hold. -/
theorem toggle_all_involution_witness :
    modelSel0.selected_indics ⊆ Finset.range modelSel0.matched_items.length ∧
    (act_deselect_all (act_select_all modelSel0)).selected_indics = ∅ ∧
    (act_toggle_all (act_toggle_all modelSel0)).selected_indics
      = modelSel0.selected_indics :=
  ⟨by decide, (toggle_all_involution modelSel0 (by decide)).1,
    (toggle_all_involution modelSel0 (by decide)).2⟩

theorem ite_toNat_eq_max (t : Int) :
    (((if t < 0 then 0 else t.toNat : ℕ)) : ℤ) = max 0 t := by
  split_ifs with h
  · simpa using (max_eq_left h.le).symm
  · rw [Int.toNat_of_nonneg (not_lt.mp h)]
    exact (max_eq_right (not_lt.mp h)).symm

/-- C4 (amended): for positive delta both cursors follow the clamp formulas
of the claim; for delta <= 0 both become max(0, cursor+delta) with no
dependence on total, so the "total == 0 forces both to 0" clause holds only
for positive delta. -/
theorem move_cursor_clamp (m : Model) (diff : Int) :
    (0 < diff →
      (((act_move_line_cursor m diff).line_cursor : ℤ)
          = max 0 (min ((m.line_cursor : ℤ) + diff)
              (min ((m.height : ℤ) - 1) ((m.matched_items.length : ℤ) - 1))) ∧
       ((act_move_line_cursor m diff).item_cursor : ℤ)
          = max 0 (min ((m.item_cursor : ℤ) + diff) ((m.matched_items.length : ℤ) - 1)))) ∧
    (diff ≤ 0 →
      (((act_move_line_cursor m diff).line_cursor : ℤ)
          = max 0 ((m.line_cursor : ℤ) + diff) ∧
       ((act_move_line_cursor m diff).item_cursor : ℤ)
          = max 0 ((m.item_cursor : ℤ) + diff))) ∧
    (m.matched_items.length = 0 → 0 < diff →
      (act_move_line_cursor m diff).line_cursor = 0 ∧
      (act_move_line_cursor m diff).item_cursor = 0) := by
  refine ⟨?_, ?_, ?_⟩
  · intro hd
    constructor
    · simp only [act_move_line_cursor, if_pos hd]
      rw [ite_toNat_eq_max, min_assoc]
    · simp only [act_move_line_cursor, if_pos hd]
      rw [ite_toNat_eq_max]
  · intro hd
    constructor
    · simp only [act_move_line_cursor, if_neg (not_lt.mpr hd)]
      rw [Int.toNat_of_nonneg (le_max_left 0 _)]
    · simp only [act_move_line_cursor, if_neg (not_lt.mpr hd)]
      rw [Int.toNat_of_nonneg (le_max_left 0 _)]
  · intro h0 hd
    constructor
    · simp only [act_move_line_cursor, if_pos hd, h0]
      split_ifs with h
      · rfl
      · exfalso
        have h2 := min_le_right
          (min ((m.line_cursor : ℤ) + diff) ((m.height : ℤ) - 1))
          (((0 : ℕ) : ℤ) - 1)
        omega
    · simp only [act_move_line_cursor, if_pos hd, h0]
      split_ifs with h
      · rfl
      · exfalso
        have h2 := min_le_right ((m.item_cursor : ℤ) + diff) (((0 : ℕ) : ℤ) - 1)
        omega

/-- C4 witness: in the cursor-at-5 state a positive delta of 1 follows the
clamp formulas (both cursors clamp to 0 because the store is empty). -/
theorem move_cursor_clamp_witness :
    ((0 : ℤ) < 1) ∧
    (((act_move_line_cursor modelCursor5 1).line_cursor : ℤ)
        = max 0 (min ((modelCursor5.line_cursor : ℤ) + 1)
            (min ((modelCursor5.height : ℤ) - 1)
              ((modelCursor5.matched_items.length : ℤ) - 1))) ∧
     ((act_move_line_cursor modelCursor5 1).item_cursor : ℤ)
        = max 0 (min ((modelCursor5.item_cursor : ℤ) + 1)
            ((modelCursor5.matched_items.length : ℤ) - 1))) :=
  ⟨by decide, (move_cursor_clamp modelCursor5 1).1 (by decide)⟩

theorem ite_toNat_eq_max_toNat (t : Int) :
    (if t < 0 then 0 else t.toNat) = (max 0 t).toNat := by
  split_ifs with h
  · rw [max_eq_left h.le]
    rfl
  · rw [max_eq_right (not_lt.mp h)]

theorem mapM_of_forall_some {α β : Type} (f : α → Option β) (g : α → β) :
    ∀ l : List α, (∀ a ∈ l, f a = some (g a)) → l.mapM f = some (l.map g) := by
  intro l
  induction l with
  | nil => intro _; rfl
  | cons a t ih =>
    intro h
    rw [List.mapM_cons, h a (List.mem_cons_self a t),
      ih (fun x hx => h x (List.mem_cons_of_mem a hx))]
    rfl

/-- C9: when every selected identity is a valid index into the master item
table, output yields exactly the raw text of each selected candidate line,
one entry per selected identity, in ascending identity order. -/
theorem output_sorted_selected (m : Model)
    (h : ∀ i ∈ m.selected_indics, i < m.items.length) :
    output m = some ((m.selected_indics.sort (· ≤ ·)).map
        (fun i => ((m.items.get? i).map Item.text).getD [])) ∧
    List.Sorted (· ≤ ·) (m.selected_indics.sort (· ≤ ·)) ∧
    (m.selected_indics.sort (· ≤ ·)).length = m.selected_indics.card := by
  refine ⟨?_, Finset.sort_sorted _ _, Finset.length_sort _⟩
  apply mapM_of_forall_some
  intro i hi
  have hlt : i < m.items.length := h i ((Finset.mem_sort _).mp hi)
  rw [List.get?_eq_get hlt]
  rfl

/-- C9 witness: with items ["a", "b"] and identity 1 selected, output yields
exactly ["b"]. -/
theorem output_sorted_selected_witness :
    (∀ i ∈ modelSel1.selected_indics, i < modelSel1.items.length) ∧
    output modelSel1 = some ((modelSel1.selected_indics.sort (· ≤ ·)).map
        (fun i => ((modelSel1.items.get? i).map Item.text).getD [])) :=
  ⟨by decide, (output_sorted_selected modelSel1 (by decide)).1⟩

theorem move_preserves_inv (m : Model) (diff : Int) (hh : 1 ≤ m.height)
    (h1 : m.line_cursor ≤ m.item_cursor) (h2 : m.line_cursor < m.height) :
    (act_move_line_cursor m diff).line_cursor ≤ (act_move_line_cursor m diff).item_cursor ∧
    (act_move_line_cursor m diff).line_cursor < m.height := by
  by_cases hd : 0 < diff
  · have hl : (act_move_line_cursor m diff).line_cursor
        = (max 0 (min (min ((m.line_cursor : ℤ) + diff) ((m.height : ℤ) - 1))
            ((m.matched_items.length : ℤ) - 1))).toNat := by
      simp only [act_move_line_cursor, if_pos hd]
      rw [ite_toNat_eq_max_toNat]
    have hi : (act_move_line_cursor m diff).item_cursor
        = (max 0 (min ((m.item_cursor : ℤ) + diff)
            ((m.matched_items.length : ℤ) - 1))).toNat := by
      simp only [act_move_line_cursor, if_pos hd]
      rw [ite_toNat_eq_max_toNat]
    rw [hl, hi]
    constructor
    · apply Int.toNat_le_toNat
      apply max_le_max le_rfl
      apply min_le_min _ le_rfl
      exact le_trans (min_le_left _ _) (by omega)
    · have e2 : max 0 (min (min ((m.line_cursor : ℤ) + diff) ((m.height : ℤ) - 1))
          ((m.matched_items.length : ℤ) - 1)) ≤ (m.height : ℤ) - 1 :=
        max_le (by omega) (le_trans (min_le_left _ _) (min_le_right _ _))
      have e3 := Int.toNat_le_toNat e2
      omega
  · have hl : (act_move_line_cursor m diff).line_cursor
        = (max 0 ((m.line_cursor : ℤ) + diff)).toNat := by
      simp only [act_move_line_cursor, if_neg hd]
    have hi : (act_move_line_cursor m diff).item_cursor
        = (max 0 ((m.item_cursor : ℤ) + diff)).toNat := by
      simp only [act_move_line_cursor, if_neg hd]
    rw [hl, hi]
    constructor
    · exact Int.toNat_le_toNat (max_le_max le_rfl (by omega))
    · have e2 : max 0 ((m.line_cursor : ℤ) + diff) ≤ (m.line_cursor : ℤ) :=
        max_le (Int.ofNat_nonneg _) (by omega)
      have e3 := Int.toNat_le_toNat e2
      omega

theorem run_nav_preserves (acts : List (NavAct × List MatchedItem)) :
    ∀ m : Model, 1 ≤ m.height → m.line_cursor ≤ m.item_cursor → m.line_cursor < m.height →
    (run_nav m acts).line_cursor ≤ (run_nav m acts).item_cursor ∧
    (run_nav m acts).line_cursor < (run_nav m acts).height ∧
    (run_nav m acts).height = m.height := by
  induction acts with
  | nil => intro m _ h1 h2; exact ⟨h1, h2, rfl⟩
  | cons p rest ih =>
    intro m hh h1 h2
    obtain ⟨a, stored⟩ := p
    show (run_nav (apply_nav { m with matched_items := stored } a) rest).line_cursor ≤ _ ∧ _
    have hm1h : ({ m with matched_items := stored } : Model).height = m.height := rfl
    cases a with
    | move diff =>
      have step := move_preserves_inv { m with matched_items := stored } diff
        (by rw [hm1h]; exact hh) h1 (by rw [hm1h]; exact h2)
      have hkeep : (act_move_line_cursor { m with matched_items := stored } diff).height
          = m.height := rfl
      have res := ih (act_move_line_cursor { m with matched_items := stored } diff)
        (by rw [hkeep]; exact hh) step.1 (by rw [hkeep]; exact step.2)
      exact ⟨res.1, res.2.1, res.2.2.trans hkeep⟩
    | page pages =>
      have step := move_preserves_inv { m with matched_items := stored }
        ((({ m with matched_items := stored } : Model).height : ℤ) * pages)
        (by rw [hm1h]; exact hh) h1 (by rw [hm1h]; exact h2)
      have hkeep : (act_move_page { m with matched_items := stored } pages).height
          = m.height := rfl
      have res := ih (act_move_page { m with matched_items := stored } pages)
        (by rw [hkeep]; exact hh) step.1 (by rw [hkeep]; exact step.2)
      exact ⟨res.1, res.2.1, res.2.2.trans hkeep⟩

/-- C5: from the initial state, for any terminal geometry giving at least
one visible row, any sequence of move/page commands with arbitrary store
contents observed at each step keeps the invariant
rowCursor <= min(rankCursor, visibleRows - 1). -/
theorem viewport_cursor_invariant (my mx : Int)
    (acts : List (NavAct × List MatchedItem))
    (hh : 1 ≤ (initial_model my mx).height) :
    (run_nav (initial_model my mx) acts).line_cursor
      ≤ min (run_nav (initial_model my mx) acts).item_cursor
          ((initial_model my mx).height - 1) := by
  have h := run_nav_preserves acts (initial_model my mx) hh (le_refl 0) hh
  have h2 := h.2.1
  have h3 := h.2.2
  exact le_min h.1 (by omega)

/-- C5 witness: geometry 30x80 (28 visible rows), a three-row downward move
over a two-entry store followed by one page up over an empty store. -/
theorem viewport_cursor_invariant_witness :
    1 ≤ (initial_model 30 80).height ∧
    (run_nav (initial_model 30 80)
        [(NavAct.move 3, [⟨0, none⟩, ⟨1, none⟩]), (NavAct.page (-1), [])]).line_cursor
      ≤ min (run_nav (initial_model 30 80)
            [(NavAct.move 3, [⟨0, none⟩, ⟨1, none⟩]), (NavAct.page (-1), [])]).item_cursor
          ((initial_model 30 80).height - 1) :=
  ⟨by decide, viewport_cursor_invariant 30 80
    [(NavAct.move 3, [⟨0, none⟩, ⟨1, none⟩]), (NavAct.page (-1), [])] (by decide)⟩


/-! Width bookkeeping lemmas for the layout engine. -/

theorem foldl_add_acc (l : List Nat) :
    ∀ a : Nat, l.foldl (fun acc n => acc + n) a = a + l.foldl (fun acc n => acc + n) 0 := by
  induction l with
  | nil => intro a; simp
  | cons x t ih =>
    intro a
    rw [List.foldl_cons, List.foldl_cons, ih (a + x), ih (0 + x)]
    omega

theorem display_width_cons (c : Char) (l : List Char) :
    display_width (c :: l) = charWidth c + display_width l := by
  unfold display_width
  rw [List.map_cons, List.foldl_cons, foldl_add_acc]
  omega

theorem display_width_append (a b : List Char) :
    display_width (a ++ b) = display_width a + display_width b := by
  induction a with
  | nil => simp [display_width]
  | cons c t ih => rw [List.cons_append, display_width_cons, display_width_cons, ih]; omega

theorem display_width_drop_le (l : List Char) (k : Nat) :
    display_width (l.drop k) ≤ display_width l := by
  obtain ⟨t, ht⟩ := List.drop_suffix k l
  calc display_width (l.drop k) ≤ display_width t + display_width (l.drop k) :=
        Nat.le_add_left _ _
    _ = display_width (t ++ l.drop k) := (display_width_append _ _).symm
    _ = display_width l := by rw [ht]

theorem display_width_drop_mono (l : List Char) {s t : Nat} (h : s ≤ t) :
    display_width (l.drop t) ≤ display_width (l.drop s) := by
  have heq : l.drop t = (l.drop s).drop (t - s) := by
    rw [List.drop_drop]
    congr 1
    omega
  rw [heq]
  exact display_width_drop_le _ _

theorem charWidth_le_two (c : Char) : charWidth c ≤ 2 := by
  unfold charWidth
  split_ifs <;> omega

theorem charWidth_pos (c : Char) : 1 ≤ charWidth c := by
  unfold charWidth
  split_ifs <;> omega

theorem checkedSub_eq_some {a b r : Nat} (h : checkedSub a b = some r) :
    b ≤ a ∧ r = a - b := by
  unfold checkedSub at h
  by_cases hba : b ≤ a
  · rw [if_pos hba] at h
    exact ⟨hba, (Option.some.injEq _ _ ▸ h).symm⟩
  · rw [if_neg hba] at h
    exact absurd h (by simp)

theorem sliceFrom_eq_some {text : List Char} {a : Nat} {r : List Char}
    (h : sliceFrom text a = some r) : a ≤ text.length ∧ r = text.drop a := by
  unfold sliceFrom at h
  by_cases ha : a ≤ text.length
  · rw [if_pos ha] at h
    exact ⟨ha, (Option.some.injEq _ _ ▸ h).symm⟩
  · rw [if_neg ha] at h
    exact absurd h (by simp)

/-- The right-to-left scan returns the least cut position whose suffix fits
the budget: the suffix from the returned index fits, and every suffix from a
strictly smaller index overflows.  `rl` is the reversed unprocessed prefix
and `suf` the already processed suffix whose width is the accumulator. -/
theorem right_fixed_go_min (m : Nat) :
    ∀ (rl suf : List Char), display_width suf ≤ m →
      display_width ((rl.reverse ++ suf).drop
          (right_fixed_go m rl (rl.length - 1) (display_width suf))) ≤ m ∧
      ∀ s < right_fixed_go m rl (rl.length - 1) (display_width suf),
        m < display_width ((rl.reverse ++ suf).drop s) := by
  intro rl
  induction rl with
  | nil =>
    intro suf hsuf
    constructor
    · simpa using hsuf
    · intro s hs
      simp [right_fixed_go] at hs
  | cons c rest ih =>
    intro suf hsuf
    have hlen : (c :: rest).length - 1 = rest.length := by simp
    by_cases hov : m < display_width suf + charWidth c
    · have hgo : right_fixed_go m (c :: rest) ((c :: rest).length - 1) (display_width suf)
          = rest.length + 1 := by
        rw [hlen, right_fixed_go, if_pos hov]
      rw [hgo]
      have harr : (c :: rest).reverse ++ suf = (rest.reverse ++ [c]) ++ suf := by simp
      constructor
      · rw [harr]
        have hl2 : rest.length + 1 = (rest.reverse ++ [c]).length := by simp
        rw [hl2, List.drop_left]
        exact hsuf
      · intro s hs
        rw [harr]
        have hmono : display_width (((rest.reverse ++ [c]) ++ suf).drop rest.length)
            ≤ display_width (((rest.reverse ++ [c]) ++ suf).drop s) :=
          display_width_drop_mono _ (by omega)
        have hdrop : ((rest.reverse ++ [c]) ++ suf).drop rest.length = c :: suf := by
          have hlr : rest.length = (rest.reverse).length := by simp
          rw [List.append_assoc, hlr, List.drop_left]
          rfl
        rw [hdrop, display_width_cons] at hmono
        omega
    · have hgo : right_fixed_go m (c :: rest) ((c :: rest).length - 1) (display_width suf)
          = right_fixed_go m rest (rest.length - 1) (display_width (c :: suf)) := by
        rw [hlen, right_fixed_go, if_neg hov, display_width_cons]
        congr 1
        omega
      have hsuf2 : display_width (c :: suf) ≤ m := by
        rw [display_width_cons]
        omega
      have hres := ih (c :: suf) hsuf2
      have harr : rest.reverse ++ (c :: suf) = (c :: rest).reverse ++ suf := by simp
      rw [harr] at hres
      rw [hgo]
      exact hres

/-- Characterization of `right_fixed` with a positive budget: it always
succeeds and returns the least index whose suffix fits the budget. -/
theorem right_fixed_min (text : List Char) (m : Nat) (hm : m ≠ 0) :
    ∃ r, right_fixed text m = some r ∧ r ≤ text.length ∧
      display_width (text.drop r) ≤ m ∧ ∀ s < r, m < display_width (text.drop s) := by
  have h0 : display_width ([] : List Char) ≤ m := by simp [display_width]
  have h := right_fixed_go_min m text.reverse [] h0
  simp only [List.reverse_reverse, List.append_nil, List.length_reverse] at h
  have hdw0 : display_width ([] : List Char) = 0 := rfl
  rw [hdw0] at h
  refine ⟨right_fixed_go m text.reverse (text.length - 1) 0, ?_, ?_, h.1, h.2⟩
  · rw [right_fixed, if_neg hm]
  · by_contra hgt
    push_neg at hgt
    have h2 := h.2 text.length hgt
    rw [List.drop_length] at h2
    rw [hdw0] at h2
    omega

theorem left_fixed_go_some (max_x len : Nat) :
    ∀ (l : List Char) (idx w : Nat), 1 ≤ idx → 1 ≤ len → idx + l.length = len →
      ∃ r, left_fixed_go max_x len l idx w = some r ∧ r ≤ len - 1 := by
  intro l
  induction l with
  | nil =>
    intro idx w h1 h2 _
    refine ⟨len - 1, ?_, le_rfl⟩
    rw [left_fixed_go]
    simp [checkedSub, h2]
  | cons c rest ih =>
    intro idx w h1 h2 h3
    by_cases hov : max_x < w + charWidth c
    · refine ⟨idx - 1, ?_, ?_⟩
      · rw [left_fixed_go, if_pos hov]
        simp [checkedSub, h1]
      · simp at h3
        omega
    · obtain ⟨r, hr, hrle⟩ := ih (idx + 1) (w + charWidth c) (by omega) h2 (by simp at h3 ⊢; omega)
      refine ⟨r, ?_, hrle⟩
      rw [left_fixed_go, if_neg hov]
      exact hr

/-- `left_fixed` succeeds on a nonempty sequence whose first glyph fits a
positive budget, with a result at most `len - 1`. -/
theorem left_fixed_some (c : Char) (rest : List Char) (m : Nat) (hm : m ≠ 0)
    (hc : charWidth c ≤ m) :
    ∃ r, left_fixed (c :: rest) m = some r ∧ r ≤ (c :: rest).length - 1 := by
  obtain ⟨r, hr, hrle⟩ := left_fixed_go_some m (c :: rest).length rest 1 (charWidth c)
    le_rfl (by simp) (by simp; omega)
  refine ⟨r, ?_, hrle⟩
  rw [left_fixed, if_neg hm, left_fixed_go, if_neg (by omega)]
  simpa using hr

/-- When the suffix already fits the budget, reshape_string is the identity
on the suffix, anchored at the start position. -/
theorem reshape_some_of_fits (text : List Char) (cw start mep : Nat)
    (hstart : start ≤ text.length) (hfit : display_width (text.drop start) ≤ cw) :
    reshape_string text cw start mep = some (text.drop start, start) := by
  have hsf : sliceFrom text start = some (text.drop start) := by
    rw [sliceFrom, if_pos hstart]
  simp only [reshape_string, hsf, if_pos hfit]

/-- In the truncation case, reshape_string succeeds whenever the budget is at
least 5 and the must-show position is inside the sequence. -/
theorem reshape_some_of_wide (text : List Char) (cw start mep : Nat)
    (hstart : start ≤ text.length) (hcw : 5 ≤ cw) (hmep : mep < text.length) :
    (reshape_string text cw start mep).isSome := by
  by_cases hfit : display_width (text.drop start) ≤ cw
  · rw [reshape_some_of_fits text cw start mep hstart hfit]
    rfl
  · push_neg at hfit
    have hsf : sliceFrom text start = some (text.drop start) := by
      rw [sliceFrom, if_pos hstart]
    have hne : text.drop start ≠ [] := by
      intro h
      rw [h] at hfit
      have hz : display_width ([] : List Char) = 0 := rfl
      omega
    obtain ⟨c, rest, hc⟩ := List.exists_cons_of_ne_nil hne
    have hcw2ne : cw - 2 ≠ 0 := by omega
    have hclew : charWidth c ≤ cw - 2 := le_trans (charWidth_le_two c) (by omega)
    obtain ⟨lf, hlf, hlfle⟩ := left_fixed_some c rest (cw - 2) hcw2ne hclew
    rw [← hc] at hlf hlfle
    have hdltlen : (text.drop start).length = text.length - start := by simp
    have hdne1 : 1 ≤ (text.drop start).length := by rw [hc]; simp
    have hmax1 : start + lf ≤ max mep (start + lf) := le_max_right _ _
    have hmax2 : max mep (start + lf) ≤ text.length - 1 :=
      max_le (by omega) (by omega)
    have hrp_le : 1 + max mep (start + lf) ≤ text.length := by omega
    have hrp_gt : start < 1 + max mep (start + lf) := by omega
    have hwin : sliceRange text start (1 + max mep (start + lf))
        = some ((text.take (1 + max mep (start + lf))).drop start) := by
      rw [sliceRange, if_pos ⟨le_of_lt hrp_gt, hrp_le⟩]
    have hwlen : ((text.take (1 + max mep (start + lf))).drop start).length
        = 1 + max mep (start + lf) - start := by
      rw [List.length_drop, List.length_take, Nat.min_eq_left hrp_le]
    obtain ⟨rf, hrf, hrfle, hrffit, hrfmin⟩ :=
      right_fixed_min ((text.take (1 + max mep (start + lf))).drop start) (cw - 2) hcw2ne
    have hcs2 : checkedSub cw 2 = some (cw - 2) := by
      rw [checkedSub, if_pos (by omega)]
    by_cases hbr : start < start + rf
    · have hrf1 : 1 ≤ rf := by omega
      have hwide : cw - 2
          < display_width ((text.take (1 + max mep (start + lf))).drop start) := by
        have h0 := hrfmin 0 hrf1
        simpa using h0
      have hcw4ne : cw - 4 ≠ 0 := by omega
      obtain ⟨rf2, hrf2, hrf2le, hrf2fit, hrf2min⟩ :=
        right_fixed_min ((text.take (1 + max mep (start + lf))).drop start) (cw - 4) hcw4ne
      have hrf2ge2 : 2 ≤ rf2 := by
        by_contra hlt
        push_neg at hlt
        have hm1 : display_width (((text.take (1 + max mep (start + lf))).drop start).drop 1)
            ≤ display_width (((text.take (1 + max mep (start + lf))).drop start).drop rf2) :=
          display_width_drop_mono _ (by omega)
        have hwne : (text.take (1 + max mep (start + lf))).drop start ≠ [] := by
          intro h
          have hl := congrArg List.length h
          rw [hwlen] at hl
          simp at hl
          omega
        obtain ⟨w0, wrest, hw0⟩ := List.exists_cons_of_ne_nil hwne
        have hsplit : display_width ((text.take (1 + max mep (start + lf))).drop start)
            = charWidth w0
              + display_width (((text.take (1 + max mep (start + lf))).drop start).drop 1) := by
          rw [hw0, display_width_cons]
          simp
        have hcw0 := charWidth_le_two w0
        omega
      have hsub2 : checkedSub (start + rf2) 2 = some (start + rf2 - 2) := by
        rw [checkedSub, if_pos (by omega)]
      have hrf2lew : rf2 ≤ 1 + max mep (start + lf) - start := by
        rw [← hwlen]
        exact hrf2le
      have hsl2 : sliceRange text (start + rf2) (1 + max mep (start + lf))
          = some ((text.take (1 + max mep (start + lf))).drop (start + rf2)) := by
        rw [sliceRange, if_pos ⟨by omega, hrp_le⟩]
      have hcs4 : checkedSub cw 4 = some (cw - 4) := by
        rw [checkedSub, if_pos (by omega)]
      simp only [reshape_string, hsf, if_neg (not_le.mpr hfit), hcs2, hlf, hwin, hrf,
        if_pos hbr, hcs4, hrf2, hsub2, hsl2, Option.isSome_some]
    · have hsl : sliceRange text (start + rf) (1 + max mep (start + lf))
          = some ((text.take (1 + max mep (start + lf))).drop (start + rf)) := by
        rw [sliceRange, if_pos ⟨by omega, hrp_le⟩]
      simp only [reshape_string, hsf, if_neg (not_le.mpr hfit), hcs2, hlf, hwin, hrf,
        if_neg hbr, hsl, Option.isSome_some]

/-- C2 counterexample: left_fixed on the empty sequence with a positive
budget, right_fixed on the empty sequence with budget 0, and reshape_string
with container widths 0 and 1 on an unfit sequence all underflow the usize
arithmetic (a panic in a debug build) instead of returning a result. -/
theorem fixed_totality_cex :
    left_fixed ([] : List Char) 5 = none ∧
    right_fixed ([] : List Char) 0 = none ∧
    reshape_string ['0', '1'] 0 0 0 = none ∧
    reshape_string ['0', '1', '2'] 1 0 0 = none := by decide

/-- C2 (amended): the layout operations are total on these domains:
left_fixed succeeds iff the budget is 0 or the sequence is nonempty with its
first glyph fitting the budget; right_fixed succeeds iff the budget is
positive or the sequence is nonempty; reshape_string succeeds whenever the
suffix fits the budget, and in the truncation case whenever the budget is at
least 5 and the must-show position is in range.  On the remaining inputs
(the empty sequence, budgets 0 and 1 with truncation) the usize arithmetic
underflows. -/
theorem fixed_reshape_totality :
    (∀ m : Nat, (left_fixed [] m).isSome ↔ m = 0) ∧
    (∀ (c : Char) (rest : List Char) (m : Nat),
      (left_fixed (c :: rest) m).isSome ↔ (m = 0 ∨ charWidth c ≤ m)) ∧
    (∀ (text : List Char) (m : Nat), (right_fixed text m).isSome ↔ (m ≠ 0 ∨ text ≠ [])) ∧
    (∀ (text : List Char) (cw start mep : Nat), start ≤ text.length →
      display_width (text.drop start) ≤ cw → (reshape_string text cw start mep).isSome) ∧
    (∀ (text : List Char) (cw start mep : Nat), start ≤ text.length →
      5 ≤ cw → mep < text.length → (reshape_string text cw start mep).isSome) := by
  refine ⟨?_, ?_, ?_, ?_, reshape_some_of_wide⟩
  · intro m
    by_cases hm : m = 0
    · simp [left_fixed, hm]
    · simp [left_fixed, hm, left_fixed_go, checkedSub]
  · intro c rest m
    by_cases hm : m = 0
    · simp [left_fixed, hm]
    · by_cases hcle : charWidth c ≤ m
      · obtain ⟨r, hr, _⟩ := left_fixed_some c rest m hm hcle
        simp [hr, hcle]
      · have hov : m < 0 + charWidth c := by omega
        simp [left_fixed, hm, left_fixed_go, if_pos hov, checkedSub, hcle]
  · intro text m
    by_cases hm : m = 0
    · subst hm
      cases text with
      | nil => simp [right_fixed, checkedSub]
      | cons c rest => simp [right_fixed, checkedSub]
    · simp [right_fixed, hm]
  · intro text cw start mep h1 h2
    rw [reshape_some_of_fits text cw start mep h1 h2]
    rfl

/-- C2 witness: an eight-glyph ASCII sequence with budget 5 (truncation
required) and must-show position 3 reshapes successfully. -/
theorem fixed_reshape_totality_witness :
    (0 : Nat) ≤ (['a', 'b', 'c', 'd', 'e', 'f', 'g', 'h'] : List Char).length ∧
    (5 : Nat) ≤ 5 ∧ 3 < (['a', 'b', 'c', 'd', 'e', 'f', 'g', 'h'] : List Char).length ∧
    (reshape_string ['a', 'b', 'c', 'd', 'e', 'f', 'g', 'h'] 5 0 3).isSome :=
  ⟨by decide, by decide, by decide,
    fixed_reshape_totality.2.2.2.2 ['a', 'b', 'c', 'd', 'e', 'f', 'g', 'h'] 5 0 3
      (by decide) (by decide) (by decide)⟩

/-- C3: reshape_string returns the whole suffix anchored at the start
position whenever the suffix fits the budget; otherwise it returns a slice
[lb, rb) of the sequence with a two-glyph trailing marker appended
unconditionally, prefixed by a two-glyph leading marker with anchor lb - 2
whenever the window moved past the scroll start (else anchored at the
start); and it reproduces the five documented vectors on "0123456789" plus
the rb = len quirk case (budget 8, start 0, mustShow 9). -/
theorem reshape_contract :
    (∀ (text : List Char) (cw start mep : Nat), start ≤ text.length →
      display_width (text.drop start) ≤ cw →
      reshape_string text cw start mep = some (text.drop start, start)) ∧
    (∀ (text : List Char) (cw start mep : Nat) (s : List Char) (p : Nat),
      cw < display_width (text.drop start) →
      reshape_string text cw start mep = some (s, p) →
      ∃ lb rb body, sliceRange text lb rb = some body ∧
        ((lb = start ∧ p = start ∧ s = body ++ ['.', '.']) ∨
         (p + 2 = lb ∧ s = '.' :: '.' :: (body ++ ['.', '.'])))) ∧
    reshape_string ['0','1','2','3','4','5','6','7','8','9'] 6 1 7
      = some (['.','.','6','7','.','.'], 4) ∧
    reshape_string ['0','1','2','3','4','5','6','7','8','9'] 12 1 7
      = some (['1','2','3','4','5','6','7','8','9'], 1) ∧
    reshape_string ['0','1','2','3','4','5','6','7','8','9'] 6 0 6
      = some (['.','.','5','6','.','.'], 3) ∧
    reshape_string ['0','1','2','3','4','5','6','7','8','9'] 8 0 4
      = some (['0','1','2','3','4','5','.','.'], 0) ∧
    reshape_string ['0','1','2','3','4','5','6','7','8','9'] 10 0 4
      = some (['0','1','2','3','4','5','6','7','8','9'], 0) ∧
    reshape_string ['0','1','2','3','4','5','6','7','8','9'] 8 0 9
      = some (['.','.','6','7','8','9','.','.'], 4) := by
  refine ⟨reshape_some_of_fits, ?_, by decide, by decide, by decide, by decide,
    by decide, by decide⟩
  intro text cw start mep s p hwide hres
  simp only [reshape_string] at hres
  split at hres
  · simp at hres
  · rename_i tail heqt
    obtain ⟨hst, htail⟩ := sliceFrom_eq_some heqt
    subst htail
    split at hres
    · rename_i hfit
      omega
    · split at hres
      · simp at hres
      · rename_i cw2 heq2
        split at hres
        · simp at hres
        · rename_i lf heql
          split at hres
          · simp at hres
          · rename_i window heqw
            split at hres
            · simp at hres
            · rename_i rf heqr
              split at hres
              · rename_i hbr
                split at hres
                · simp at hres
                · rename_i cw4 heq4
                  split at hres
                  · simp at hres
                  · rename_i rf2 heqr2
                    split at hres
                    · simp at hres
                    · rename_i ret_pos heqc
                      split at hres
                      · simp at hres
                      · rename_i body heqb
                        rw [Option.some.injEq, Prod.mk.injEq] at hres
                        obtain ⟨hs, hp⟩ := hres
                        obtain ⟨hge2, hret⟩ := checkedSub_eq_some heqc
                        refine ⟨start + rf2, 1 + max mep (start + lf), body, heqb,
                          Or.inr ⟨by omega, hs.symm⟩⟩
              · rename_i hbr
                split at hres
                · simp at hres
                · rename_i body heqb
                  rw [Option.some.injEq, Prod.mk.injEq] at hres
                  obtain ⟨hs, hp⟩ := hres
                  refine ⟨start + rf, 1 + max mep (start + lf), body, heqb,
                    Or.inl ⟨by omega, by omega, hs.symm⟩⟩

/-- C3 witness: with budget 12 exceeding the suffix width, reshape_string is
the identity on the suffix of "0123456789" from index 1, anchored at 1. -/
theorem reshape_contract_witness :
    (1 : Nat) ≤ (['0','1','2','3','4','5','6','7','8','9'] : List Char).length ∧
    display_width ((['0','1','2','3','4','5','6','7','8','9'] : List Char).drop 1) ≤ 12 ∧
    reshape_string ['0','1','2','3','4','5','6','7','8','9'] 12 1 7
      = some ((['0','1','2','3','4','5','6','7','8','9'] : List Char).drop 1, 1) :=
  ⟨by decide, by decide,
    reshape_contract.1 ['0','1','2','3','4','5','6','7','8','9'] 12 1 7
      (by decide) (by decide)⟩

/-- C7 counterexample: a row whose ranked match has no highlight span (and
likewise one with a contiguous Range span) draws only the selection marker;
the candidate text "abc" — which the layout engine would return in full for
the render budget — is never passed through it nor drawn, refuting the
claim that every visible row's text is reshaped and drawn regardless of the
span kind. -/
theorem print_item_range_cex :
    print_item modelAbc ⟨0, none⟩ false = some [(' ', COLOR_NORMAL, false)] ∧
    print_item modelAbc ⟨0, some (MatchedRange.Range 0 2)⟩ false
      = some [(' ', COLOR_NORMAL, false)] ∧
    reshape_string ['a', 'b', 'c'] (usize_cast (modelAbc.max_x - 3))
        modelAbc.hscroll_offset 0 = some (['a', 'b', 'c'], 0) := by decide

/-- C7 (amended): per rendered row, only a Chars highlight span causes the
candidate's glyph sequence to be passed through the layout engine — with
containerWidth = max_x - 3, startPos = hscroll_offset and mustShowPos = the
last matched offset (0 when the span is empty) — and the returned slice to
be drawn glyph by glyph behind the selection marker; rows with a Range span
or no span draw only the selection marker. -/
theorem print_item_layout (m : Model) (matched : MatchedItem) (is_current : Bool)
    (item : Item) (hitem : m.items.get? matched.index = some item) :
    (∀ (il : List Nat) (t : List Char) (pos : Nat),
      matched.matched_range = some (MatchedRange.Chars il) →
      reshape_string item.text (usize_cast (m.max_x - 3)) m.hscroll_offset
          ((il.getLast?).getD 0) = some (t, pos) →
      print_item m matched is_current
        = some (sel_marker m matched is_current
            :: highlight_loop is_current t (skip_indics pos il) pos)) ∧
    (matched.matched_range = none →
      print_item m matched is_current = some [sel_marker m matched is_current]) ∧
    (∀ a b, matched.matched_range = some (MatchedRange.Range a b) →
      print_item m matched is_current = some [sel_marker m matched is_current]) := by
  refine ⟨?_, ?_, ?_⟩
  · intro il t pos hchars hrs
    simp only [print_item, hitem, hchars, hrs]
  · intro hnone
    simp only [print_item, hitem, hnone]
  · intro a b hrange
    simp only [print_item, hitem, hrange]

/-- C7 witness: a row with Chars span [1] over the candidate "abc" reshapes
the full text (budget 77) and draws it glyph by glyph after the marker. -/
theorem print_item_layout_witness :
    modelAbc.items.get? 0 = some ⟨['a', 'b', 'c']⟩ ∧
    reshape_string (⟨['a', 'b', 'c']⟩ : Item).text (usize_cast (modelAbc.max_x - 3))
        modelAbc.hscroll_offset ((([1] : List Nat).getLast?).getD 0)
      = some (['a', 'b', 'c'], 0) ∧
    print_item modelAbc ⟨0, some (MatchedRange.Chars [1])⟩ false
      = some (sel_marker modelAbc ⟨0, some (MatchedRange.Chars [1])⟩ false
          :: highlight_loop false ['a', 'b', 'c'] (skip_indics 0 [1]) 0) :=
  ⟨by decide, by decide,
    (print_item_layout modelAbc ⟨0, some (MatchedRange.Chars [1])⟩ false
        ⟨['a', 'b', 'c']⟩ (by decide)).1 [1] ['a', 'b', 'c'] 0 rfl (by decide)⟩
